import Mathlib

/-
Verification of the street-network graph builder of osm_parse.py.

The Python source is shallowly embedded: tag dictionaries become association
lists, Python floats become rationals (exact arithmetic) except for the
trigonometric haversine distance, which is embedded over the reals, and
Python exceptions become an explicit error monad.  networkx.Graph is an
UNDIRECTED graph in networkx: an edge is an unordered pair of node ids
carrying one data record, and adding an existing edge overwrites its data.
-/

/-- Python exceptions that can escape the build: KeyError from a missing
dictionary key, RuntimeError from mutating a dict while iterating it. -/
inductive PyErr where
  | keyError (k : String)
  | runtimeError
deriving DecidableEq

/-- Tag lookup in a Python dict modelled as an association list. -/
def lookupTag (tags : List (String × String)) (k : String) : Option String :=
  (tags.find? (fun p => p.1 == k)).map (fun p => p.2)

/-- Numeric value of a list of decimal digit characters; none when empty or
when a character is no digit. -/
def digitsVal (l : List Char) : Option Nat :=
  if l.isEmpty then none
  else if l.all Char.isDigit then
    some (l.foldl (fun a c => 10 * a + (c.toNat - 48)) 0)
  else none

/-- Models Python float() on plain decimal literals (optional sign, integer
digits, optional fractional part): the value as an exact rational, none when
the string does not parse (float() raises, caught by the try/except of
lines 147-150). -/
def pyFloat (s : String) : Option ℚ :=
  let cs := s.toList
  let neg : Bool := match cs with
    | '-' :: _ => true
    | _ => false
  let body : List Char := match cs with
    | '-' :: r => r
    | '+' :: r => r
    | r => r
  match body.splitOn '.' with
  | [ip] => (digitsVal ip).map (fun n => if neg then -(n : ℚ) else (n : ℚ))
  | [ip, fp] =>
    if ip.isEmpty && fp.isEmpty then none
    else if (ip ++ fp).all Char.isDigit then
      let n : ℚ := ((ip ++ fp).foldl (fun a c => 10 * a + (c.toNat - 48)) 0 : Nat)
      let v := n / ((10 : ℚ) ^ fp.length)
      some (if neg then -v else v)
    else none
  | _ => none

/-- Lines 145-150 of create_streetnetwork (duplicated at 157-162 and
170-175): max_v starts at 50/3.6 and a parsable maxspeed tag overrides it
with float(tag)/3.6; an unparsable tag is swallowed by the except clause. -/
def computeMaxV (tags : List (String × String)) : ℚ :=
  match lookupTag tags "maxspeed" with
  | none => 50 / (3.6 : ℚ)
  | some s =>
    match pyFloat s with
    | some v => v / (3.6 : ℚ)
    | none => 50 / (3.6 : ℚ)

/-- A parsed OSM way (class Way, lines 230-235): identifier, ordered node
references, tag dict. -/
structure Way where
  id : String
  nds : List String
  tags : List (String × String)
deriving DecidableEq

/-- A parsed OSM node (class Node, lines 219-224). -/
structure OsmNode where
  id : String
  lon : ℚ
  lat : ℚ
  tags : List (String × String)
deriving DecidableEq

/-- The attributes create_streetnetwork puts on an edge (lines 151, 163-164,
176-177): the originating way id, the max speed, and the cars dict.  The
cars dict is a mutable Python object shared by every edge the same way
iteration touches, so it is embedded as an index into a store of
registries (Python object identity). -/
structure EdgeData where
  id : String
  max_v : ℚ
  carsIdx : Nat
deriving DecidableEq

/-- networkx.Graph (line 129): an UNDIRECTED graph.  nodes in insertion
order; each edge is one record keyed by an unordered pair of node ids. -/
structure PyGraph where
  nodes : List String
  edges : List ((String × String) × EdgeData)
deriving DecidableEq

def PyGraph.empty : PyGraph := ⟨[], []⟩

/-- Whether a stored edge is the undirected edge between u and v. -/
def edgeMatches (u v : String) (e : (String × String) × EdgeData) : Bool :=
  (e.1.1 == u && e.1.2 == v) || (e.1.1 == v && e.1.2 == u)

/-- Adjacency lookup in networkx.Graph: (u,v) and (v,u) are the same edge. -/
def lookupEdge (g : PyGraph) (u v : String) : Option ((String × String) × EdgeData) :=
  g.edges.find? (edgeMatches u v)

def addNode (g : PyGraph) (n : String) : PyGraph :=
  if g.nodes.contains n then g else { g with nodes := g.nodes ++ [n] }

/-- networkx.Graph.add_edge(u, v, **attr): endpoints are added as nodes;
an existing undirected edge has its data overwritten, a new one is
appended. -/
def addEdge (g : PyGraph) (u v : String) (d : EdgeData) : PyGraph :=
  let g1 := addNode (addNode g u) v
  if g1.edges.any (edgeMatches u v) then
    { g1 with edges := g1.edges.map (fun e => if edgeMatches u v e then (e.1, d) else e) }
  else
    { g1 with edges := g1.edges ++ [((u, v), d)] }

/-- networkx.Graph.add_path(nlist, **attr): add_edge over adjacent pairs. -/
def add_path (g : PyGraph) (nds : List String) (d : EdgeData) : PyGraph :=
  (nds.zip nds.tail).foldl (fun g p => addEdge g p.1 p.2 d) g

/-- The cars dict built for one way (lines 142-144, 154-156, 167-169):
every referenced node id maps to an empty occupant list. -/
def buildCars (nds : List String) : List (String × List String) :=
  nds.foldl
    (fun m i =>
      if m.any (fun p => p.1 == i) then
        m.map (fun p => if p.1 == i then (i, []) else p)
      else m ++ [(i, [])])
    []

/-- The graph under construction together with the store of cars dicts:
one dict object is allocated per processed way. -/
structure BuildState where
  graph : PyGraph
  registries : List (List (String × List String))
deriving DecidableEq

def initBuildState : BuildState := ⟨PyGraph.empty, []⟩

/-- Lines 135-136: highway values skipped by the way loop.  The source
spells "cicleway" (sic). -/
def excludedHighways : List String :=
  ["cicleway", "path", "corridor", "steps", "bridleway", "footway", "bus_guideway",
   "raceway", "pedestrian", "service", "sidewalk", "proposed", "construction"]

/-- One iteration of the way loop of create_streetnetwork (lines 132-177).
The membership test on line 133 is guarded by only_roads, but line 135
reads w.tags["highway"] unconditionally (KeyError when absent and
only_roads is false).  A way whose oneway tag equals "yes" gets one
add_path call; any other way gets a second add_path on the reversed node
list with the same attributes (lines 139-177). -/
def processWay (only_roads : Bool) (st : BuildState) (w : Way) : Except PyErr BuildState :=
  if only_roads && (lookupTag w.tags "highway").isNone then .ok st
  else
    match lookupTag w.tags "highway" with
    | none => .error (.keyError "highway")
    | some hv =>
      if excludedHighways.contains hv then .ok st
      else
        let cars := buildCars w.nds
        let d : EdgeData := ⟨w.id, computeMaxV w.tags, st.registries.length⟩
        if lookupTag w.tags "oneway" = some "yes" then
          .ok ⟨add_path st.graph w.nds d, st.registries ++ [cars]⟩
        else
          .ok ⟨add_path (add_path st.graph w.nds d) w.nds.reverse d,
               st.registries ++ [cars]⟩

/-- The way loop of create_streetnetwork over a list of (split) ways. -/
def buildEdges (only_roads : Bool) (ways : List Way) : Except PyErr BuildState :=
  ways.foldlM (processWay only_roads) initBuildState

/-- The scan of slice_array (lines 240-241): starting at index i, the first
index before the last position whose node has histogram count above 1. -/
def findDivIdx (d : String → Nat) (ar : List String) (i : Nat) : Option Nat :=
  if h : i + 1 < ar.length then
    if 1 < d (ar.getD i "") then some i
    else findDivIdx d ar (i + 1)
  else none
termination_by ar.length - i
decreasing_by simp_wf; omega

theorem findDivIdx_bounds (d : String → Nat) (ar : List String) :
    ∀ i k, findDivIdx d ar i = some k →
      i ≤ k ∧ k + 1 < ar.length ∧ 1 < d (ar.getD k "") := by
  have aux : ∀ n i k, ar.length - i ≤ n → findDivIdx d ar i = some k →
      i ≤ k ∧ k + 1 < ar.length ∧ 1 < d (ar.getD k "") := by
    intro n
    induction n with
    | zero =>
      intro i k hn hf
      rw [findDivIdx] at hf
      rw [dif_neg (by omega)] at hf
      exact absurd hf (by simp)
    | succ n ih =>
      intro i k hn hf
      rw [findDivIdx] at hf
      by_cases h1 : i + 1 < ar.length
      · rw [dif_pos h1] at hf
        by_cases h2 : 1 < d (ar.getD i "")
        · rw [if_pos h2] at hf
          cases hf
          exact ⟨le_refl _, h1, h2⟩
        · rw [if_neg h2] at hf
          have := ih (i + 1) k (by omega) hf
          exact ⟨by omega, this.2.1, this.2.2⟩
      · rw [dif_neg h1] at hf
        exact absurd hf (by simp)
  intro i k
  exact aux (ar.length - i) i k (le_refl _)

/-- slice_array (lines 239-248): cut ar after the first interior divider
(histogram count above 1) and recurse on the right part, which starts at
that divider. -/
def slice_array (d : String → Nat) (ar : List String) : List (List String) :=
  match hf : findDivIdx d ar 1 with
  | none => [ar]
  | some i => ar.take (i + 1) :: slice_array d (ar.drop i)
termination_by ar.length
decreasing_by
  have hb := findDivIdx_bounds d ar 1 i hf
  simp_wf
  omega

/-- Way.split (lines 237-262): one Way per slice, its id suffixed by the
zero-based slice index, node list replaced by the slice, tags kept. -/
def Way.split (w : Way) (dividers : String → Nat) : List Way :=
  (slice_array dividers w.nds).enum.map
    (fun p => { w with id := w.id ++ "-" ++ toString p.1, nds := p.2 })

/-- node_histogram initialization (line 314): dict.fromkeys(nodes, 0). -/
def initHist (nodes : List OsmNode) : List (String × Nat) :=
  nodes.map (fun n => (n.id, 0))

/-- node_histogram[node] += 1 (line 320): KeyError when node is no key. -/
def incrNode (h : List (String × Nat)) (nd : String) : Except PyErr (List (String × Nat)) :=
  if h.any (fun p => p.1 == nd) then
    .ok (h.map (fun p => if p.1 == nd then (p.1, p.2 + 1) else p))
  else .error (.keyError nd)

/-- The histogram loop of OSM.__init__ (lines 315-320).  A way with fewer
than two node references is deleted from the dict being iterated, which in
Python 3 makes the very next step of the iterator raise RuntimeError
(dictionary changed size during iteration), before any later way is
visited. -/
def histogramPass (ways : List Way) (h : List (String × Nat)) :
    Except PyErr (List (String × Nat)) :=
  match ways with
  | [] => .ok h
  | w :: rest =>
    if w.nds.length < 2 then .error .runtimeError
    else do
      let h2 ← w.nds.foldlM incrNode h
      histogramPass rest h2

/-- Count of a node id in the histogram.  In the source the split always
runs with every referenced node a key of the histogram (otherwise the
build already raised), so the default 0 is never read. -/
def histCount (h : List (String × Nat)) (nd : String) : Nat :=
  ((h.find? (fun p => p.1 == nd)).map (fun p => p.2)).getD 0

/-- OSM.__init__ after parsing (lines 313-328): histogram pass, then every
way replaced by its splits.  The source keys new_ways by the split ids;
those never collide (distinct way ids get distinct suffixed ids), so the
dict values in insertion order are this flat map. -/
def osmInit (nodes : List OsmNode) (ways : List Way) : Except PyErr (List Way) := do
  let h ← histogramPass ways (initHist nodes)
  .ok (ways.flatMap (fun w => w.split (histCount h)))

/-- A bus-stop feature as appended to bus_stops (lines 193-198): display
name and the coordinates [lon, lat]. -/
structure Feature where
  name : String
  lon : ℚ
  lat : ℚ
deriving DecidableEq

/-- The bus_stops collection of the node loop (lines 189-199): one feature
per node tagged public_transport=stop_position (the source tests that
value twice), display name from the name tag with fallback "unkown"
(sic, line 197). -/
def extractBusStops (ns : List OsmNode) : List Feature :=
  ns.foldl
    (fun acc n =>
      match lookupTag n.tags "public_transport" with
      | some v =>
        if v = "stop_position" ∨ v = "stop_position" then
          acc ++ [⟨(lookupTag n.tags "name").getD "unkown", n.lon, n.lat⟩]
        else acc
      | none => acc)
    []

/-- osm.nodes[n_id] for every node id of the graph (line 184): KeyError
when a graph node id is not among the parsed nodes. -/
def resolveNodes (nodes : List OsmNode) (ids : List String) : Except PyErr (List OsmNode) :=
  ids.mapM (fun i =>
    match nodes.find? (fun n => n.id == i) with
    | some n => Except.ok n
    | none => Except.error (.keyError i))

/-- A parsed OSM document: what the SAX handler leaves in OSM.nodes and
OSM.ways (insertion order). -/
structure OsmDoc where
  nodes : List OsmNode
  ways : List Way
deriving DecidableEq

/-- create_streetnetwork (lines 110-216) up to the geodesic weighting loop,
which adds no edge, node or feature: document model, way loop, node loop
with bus-stop extraction. -/
def create_streetnetwork (doc : OsmDoc) (only_roads : Bool) :
    Except PyErr (BuildState × List Feature) := do
  let segs ← osmInit doc.nodes doc.ways
  let st ← buildEdges only_roads segs
  let ns ← resolveNodes doc.nodes st.graph.nodes
  .ok (st, extractBusStops ns)

/-- Degree-to-radian conversion used by haversine (line 35). -/
noncomputable def radians (x : ℝ) : ℝ := x * Real.pi / 180

/-- haversine (lines 28-45), embedded over the reals: great-circle distance
on a sphere of radius 6371 km, in meters when unit_m. -/
noncomputable def haversine (lon1 lat1 lon2 lat2 : ℝ) (unit_m : Bool) : ℝ :=
  let l1 := radians lon1
  let p1 := radians lat1
  let l2 := radians lon2
  let p2 := radians lat2
  let dlon := l2 - l1
  let dlat := p2 - p1
  let a := Real.sin (dlat / 2) ^ 2 + Real.cos p1 * Real.cos p2 * Real.sin (dlon / 2) ^ 2
  let c := 2 * Real.arcsin (Real.sqrt a)
  let r : ℝ := if unit_m then 6371 * 1000 else 6371
  c * r

/-- The build state an Except result carries, with the initial state as the
value of the error case (used only to state facts about runs that are shown
to succeed). -/
def stateOf (r : Except PyErr BuildState) : BuildState :=
  match r with
  | .ok st => st
  | .error _ => initBuildState

/-- The graph of a full pipeline result (empty graph as error placeholder). -/
def graphOf (r : Except PyErr (BuildState × List Feature)) : PyGraph :=
  match r with
  | .ok p => p.1.graph
  | .error _ => PyGraph.empty

/-- The bus stops of a full pipeline result. -/
def busStopsOf (r : Except PyErr (BuildState × List Feature)) : List Feature :=
  match r with
  | .ok p => p.2
  | .error _ => []

/-- Whether a result is an uncaught KeyError. -/
def isKeyErrorResult {α : Type} (r : Except PyErr α) : Bool :=
  match r with
  | .error (.keyError _) => true
  | _ => false

/-- Append one car to the occupant list stored under nodeKey. -/
def regAppend (reg : List (String × List String)) (nodeKey car : String) :
    List (String × List String) :=
  reg.map (fun p => if p.1 == nodeKey then (p.1, p.2 ++ [car]) else p)

/-- What the external simulation collaborator would do to one edge: append
a car to the cars dict reachable from the edge between u and v.  The dict
is shared through the registry store, exactly as the Python object is. -/
def addOccupant (st : BuildState) (u v nodeKey car : String) : BuildState :=
  match lookupEdge st.graph u v with
  | none => st
  | some e =>
    let idx := e.2.carsIdx
    let reg := regAppend (st.registries.getD idx []) nodeKey car
    { st with registries := st.registries.set idx reg }

/-- The occupant registry reachable from the edge between u and v. -/
def edgeRegistry (st : BuildState) (u v : String) : Option (List (String × List String)) :=
  (lookupEdge st.graph u v).map (fun e => st.registries.getD e.2.carsIdx [])

/-- The spec's description (section 4.6) of the transit-stop feature of one
point, written for comparison with the source's extraction loop; the
display-name placeholder is spelled as the code spells it. -/
def stopFeatureSpec (n : OsmNode) : Option Feature :=
  if lookupTag n.tags "public_transport" = some "stop_position" then
    some ⟨(lookupTag n.tags "name").getD "unkown", n.lon, n.lat⟩
  else none

/-- Whether a node is tagged as a stop position. -/
def isStopPos (n : OsmNode) : Bool :=
  lookupTag n.tags "public_transport" == some "stop_position"

/-- The edges the way loop produces from one retained way alone. -/
def edgesOfWay (w : Way) : List ((String × String) × EdgeData) :=
  (stateOf (buildEdges true [w])).graph.edges

def nodeA : OsmNode := ⟨"A", 0, 0, []⟩

def nodeB : OsmNode := ⟨"B", 1, 0, []⟩

/-- A two-way residential road between A and B. -/
def docTwoWay : OsmDoc := ⟨[nodeA, nodeB], [⟨"w", ["A", "B"], [("highway", "residential")]⟩]⟩

/-- The same road tagged oneway=yes. -/
def docOneWay : OsmDoc :=
  ⟨[nodeA, nodeB], [⟨"w", ["A", "B"], [("highway", "residential"), ("oneway", "yes")]⟩]⟩

/-- A document whose only way references a single node. -/
def docDegenerate : OsmDoc := ⟨[nodeA], [⟨"w1", ["A"], []⟩]⟩

/-- A degenerate way followed by a way with a dangling node reference. -/
def docDegThenDangling : OsmDoc := ⟨[nodeA], [⟨"w1", ["A"], []⟩, ⟨"w2", ["A", "X"], []⟩]⟩

/-- A well-formed two-node way that lacks a highway tag. -/
def docNoHighway : OsmDoc := ⟨[nodeA, nodeB], [⟨"w", ["A", "B"], []⟩]⟩

/-- A well-formed way whose second node reference dangles. -/
def docDangling : OsmDoc := ⟨[nodeA, nodeB], [⟨"w", ["A", "X"], [("highway", "residential")]⟩]⟩

/-- A two-way road tagged highway=cycleway. -/
def docCycleway : OsmDoc := ⟨[nodeA, nodeB], [⟨"w", ["A", "B"], [("highway", "cycleway")]⟩]⟩

/-- A bus stop without a name tag, on a residential road. -/
def nodeStop : OsmNode := ⟨"A", 1, 2, [("public_transport", "stop_position")]⟩

def docBusStop : OsmDoc := ⟨[nodeStop, nodeB], [⟨"w", ["A", "B"], [("highway", "residential")]⟩]⟩

/-- The two-way way of the shared-registry analysis. -/
def way4 : Way := ⟨"w", ["A", "B"], [("highway", "residential")]⟩

def st4 : BuildState := stateOf (buildEdges true [way4])

/-- A way with a parsable maxspeed tag. -/
def way5 : Way := ⟨"w", ["A", "B"], [("highway", "residential"), ("maxspeed", "30")]⟩

/-- A three-point way whose middle point is shared. -/
def way2w : Way := ⟨"w", ["A", "B", "C"], []⟩

def div2w : String → Nat := fun s => if s = "B" then 2 else 1

theorem findDivIdx_none_spec (d : String → Nat) (ar : List String) :
    ∀ i, findDivIdx d ar i = none →
      ∀ j, i ≤ j → j + 1 < ar.length → d (ar.getD j "") ≤ 1 := by
  have aux : ∀ n i, ar.length - i ≤ n → findDivIdx d ar i = none →
      ∀ j, i ≤ j → j + 1 < ar.length → d (ar.getD j "") ≤ 1 := by
    intro n
    induction n with
    | zero =>
      intro i hn _ j hij hj
      exact absurd hj (by omega)
    | succ n ih =>
      intro i hn hf j hij hj
      rw [findDivIdx] at hf
      by_cases h1 : i + 1 < ar.length
      · rw [dif_pos h1] at hf
        by_cases h2 : 1 < d (ar.getD i "")
        · rw [if_pos h2] at hf
          exact absurd hf (by simp)
        · rw [if_neg h2] at hf
          rcases Nat.eq_or_lt_of_le hij with rfl | hlt
          · omega
          · exact ih (i + 1) (by omega) hf j (by omega) hj
      · exact absurd hj (by omega)
  intro i
  exact aux (ar.length - i) i (le_refl _)

theorem findDivIdx_min (d : String → Nat) (ar : List String) :
    ∀ i k, findDivIdx d ar i = some k →
      ∀ j, i ≤ j → j < k → d (ar.getD j "") ≤ 1 := by
  have aux : ∀ n i k, ar.length - i ≤ n → findDivIdx d ar i = some k →
      ∀ j, i ≤ j → j < k → d (ar.getD j "") ≤ 1 := by
    intro n
    induction n with
    | zero =>
      intro i k hn hf
      rw [findDivIdx, dif_neg (by omega)] at hf
      exact absurd hf (by simp)
    | succ n ih =>
      intro i k hn hf j hij hjk
      rw [findDivIdx] at hf
      by_cases h1 : i + 1 < ar.length
      · rw [dif_pos h1] at hf
        by_cases h2 : 1 < d (ar.getD i "")
        · rw [if_pos h2] at hf
          cases hf
          exact absurd hjk (by omega)
        · rw [if_neg h2] at hf
          rcases Nat.eq_or_lt_of_le hij with rfl | hlt
          · omega
          · exact ih (i + 1) k (by omega) hf j (by omega) hjk
      · rw [dif_neg h1] at hf
        exact absurd hf (by simp)
  intro i k
  exact aux (ar.length - i) i k (le_refl _)

theorem slice_array_eq_none (d : String → Nat) (ar : List String)
    (h : findDivIdx d ar 1 = none) : slice_array d ar = [ar] := by
  rw [slice_array]
  split
  · rfl
  · rename_i i hf
    rw [h] at hf
    exact absurd hf (by simp)

theorem slice_array_eq_some (d : String → Nat) (ar : List String) (i : Nat)
    (h : findDivIdx d ar 1 = some i) :
    slice_array d ar = ar.take (i + 1) :: slice_array d (ar.drop i) := by
  rw [slice_array]
  split
  · rename_i hf
    rw [h] at hf
    exact absurd hf (by simp)
  · rename_i k hf
    rw [h] at hf
    cases hf
    rfl

theorem slice_array_ne_nil (d : String → Nat) (ar : List String) :
    slice_array d ar ≠ [] := by
  cases hf : findDivIdx d ar 1 with
  | none => rw [slice_array_eq_none d ar hf]; simp
  | some i => rw [slice_array_eq_some d ar i hf]; simp

theorem slice_array_interior (d : String → Nat) :
    ∀ n (ar : List String), ar.length ≤ n → ∀ s ∈ slice_array d ar,
      ∀ j ∈ List.range' 1 (s.length - 2), d (s.getD j "") ≤ 1 := by
  intro n
  induction n with
  | zero =>
    intro ar hn s hs j hj
    have har : ar = [] := List.eq_nil_of_length_eq_zero (by omega)
    subst har
    have hf : findDivIdx d ([] : List String) 1 = none := by
      rw [findDivIdx, dif_neg (by simp)]
    rw [slice_array_eq_none d [] hf] at hs
    simp at hs
    subst hs
    simp [List.mem_range'_1] at hj
  | succ n ih =>
    intro ar hn s hs j hj
    cases hf : findDivIdx d ar 1 with
    | none =>
      rw [slice_array_eq_none d ar hf] at hs
      simp at hs
      subst hs
      rw [List.mem_range'_1] at hj
      exact findDivIdx_none_spec d s 1 hf j (by omega) (by omega)
    | some i =>
      have hb := findDivIdx_bounds d ar 1 i hf
      rw [slice_array_eq_some d ar i hf] at hs
      rcases List.mem_cons.mp hs with rfl | hs2
      · rw [List.mem_range'_1] at hj
        have hlen : (ar.take (i + 1)).length = i + 1 := by
          rw [List.length_take]; omega
        rw [hlen] at hj
        have hgd : (ar.take (i + 1)).getD j "" = ar.getD j "" := by
          rw [List.getD_eq_getElem?_getD, List.getD_eq_getElem?_getD,
            List.getElem?_take, if_pos (by omega : j < i + 1)]
        rw [hgd]
        exact findDivIdx_min d ar 1 i hf j (by omega) (by omega)
      · exact ih (ar.drop i) (by rw [List.length_drop]; omega) s hs2 j hj

theorem slice_array_no_divider (d : String → Nat) (ar : List String)
    (h : ∀ j ∈ List.range' 1 (ar.length - 2), d (ar.getD j "") ≤ 1) :
    slice_array d ar = [ar] := by
  cases hf : findDivIdx d ar 1 with
  | none => exact slice_array_eq_none d ar hf
  | some i =>
    have hb := findDivIdx_bounds d ar 1 i hf
    have hi : i ∈ List.range' 1 (ar.length - 2) := by
      rw [List.mem_range'_1]; omega
    have := h i hi
    omega

theorem slice_array_one_divider (d : String → Nat) (ar : List String) (i₀ : Nat)
    (hmem : i₀ ∈ List.range' 1 (ar.length - 2)) (hdiv : 1 < d (ar.getD i₀ ""))
    (hothers : ∀ j ∈ List.range' 1 (ar.length - 2), j ≠ i₀ → d (ar.getD j "") ≤ 1) :
    slice_array d ar = [ar.take (i₀ + 1), ar.drop i₀] := by
  rw [List.mem_range'_1] at hmem
  have hfirst : findDivIdx d ar 1 = some i₀ := by
    cases hf : findDivIdx d ar 1 with
    | none =>
      have := findDivIdx_none_spec d ar 1 hf i₀ (by omega) (by omega)
      omega
    | some k =>
      have hb := findDivIdx_bounds d ar 1 k hf
      rcases Nat.lt_trichotomy k i₀ with hlt | heq | hgt
      · have := hothers k (by rw [List.mem_range'_1]; omega) (by omega)
        omega
      · rw [heq]
      · have := findDivIdx_min d ar 1 k hf i₀ (by omega) hgt
        omega
  rw [slice_array_eq_some d ar i₀ hfirst]
  have htail : slice_array d (ar.drop i₀) = [ar.drop i₀] := by
    apply slice_array_no_divider
    intro j hj
    rw [List.mem_range'_1, List.length_drop] at hj
    have hgd : (ar.drop i₀).getD j "" = ar.getD (i₀ + j) "" := by
      rw [List.getD_eq_getElem?_getD, List.getD_eq_getElem?_getD, List.getElem?_drop]
    rw [hgd]
    exact hothers (i₀ + j) (by rw [List.mem_range'_1]; omega) (by omega)
  rw [htail]

theorem way_split_map_nds_aux (w : Way) :
    ∀ (l : List (List String)) (k : Nat),
      ((List.enumFrom k l).map
        (fun p => { w with id := w.id ++ "-" ++ toString p.1, nds := p.2 })).map Way.nds = l := by
  intro l
  induction l with
  | nil => intro k; rfl
  | cons a t ih =>
    intro k
    simp only [List.enumFrom_cons, List.map_cons]
    rw [ih (k + 1)]

theorem Way.split_map_nds (w : Way) (d : String → Nat) :
    (w.split d).map Way.nds = slice_array d w.nds := by
  exact way_split_map_nds_aux w (slice_array d w.nds) 0

theorem Way.split_tags (w : Way) (d : String → Nat) :
    ∀ sw ∈ w.split d, sw.tags = w.tags := by
  intro sw hsw
  unfold Way.split at hsw
  rw [List.mem_map] at hsw
  obtain ⟨p, _, rfl⟩ := hsw
  rfl

theorem Way.split_length_eq (w : Way) (d : String → Nat) :
    (w.split d).length = (slice_array d w.nds).length := by
  unfold Way.split
  rw [List.length_map, List.enum_length]

theorem Way.split_ne_nil (w : Way) (d : String → Nat) : w.split d ≠ [] := by
  intro h
  have h1 := slice_array_ne_nil d w.nds
  have h2 := Way.split_length_eq w d
  rw [h, List.length_nil] at h2
  exact h1 (List.eq_nil_of_length_eq_zero h2.symm)

/-- Claim C2: for a retained polyline of at least 2 points, Way.split yields
exactly one segment (identical point order) when no interior point has
histogram count above 1; exactly two segments that share the boundary point
and concatenate back to the input when exactly one interior position does;
and in general no produced segment has an interior point with histogram
count above 1. -/
theorem claim2_way_split (w : Way) (d : String → Nat) (h2 : 2 ≤ w.nds.length) :
    ((∀ j ∈ List.range' 1 (w.nds.length - 2), d (w.nds.getD j "") ≤ 1) →
      (w.split d).map Way.nds = [w.nds])
    ∧ (∀ i₀ ∈ List.range' 1 (w.nds.length - 2), 1 < d (w.nds.getD i₀ "") →
        (∀ j ∈ List.range' 1 (w.nds.length - 2), j ≠ i₀ → d (w.nds.getD j "") ≤ 1) →
        (w.split d).map Way.nds = [w.nds.take (i₀ + 1), w.nds.drop i₀]
        ∧ w.nds.take (i₀ + 1) ++ (w.nds.drop i₀).tail = w.nds
        ∧ (w.nds.take (i₀ + 1)).getLast? = w.nds[i₀]?
        ∧ (w.nds.drop i₀).head? = w.nds[i₀]?)
    ∧ (∀ s ∈ (w.split d).map Way.nds, ∀ j ∈ List.range' 1 (s.length - 2),
        d (s.getD j "") ≤ 1) := by
  refine ⟨?_, ?_, ?_⟩
  · intro h
    rw [Way.split_map_nds]
    exact slice_array_no_divider d w.nds h
  · intro i₀ hmem hdiv hothers
    have hm := hmem
    rw [List.mem_range'_1] at hm
    refine ⟨?_, ?_, ?_, ?_⟩
    · rw [Way.split_map_nds]
      exact slice_array_one_divider d w.nds i₀ hmem hdiv hothers
    · rw [List.tail_drop]
      exact List.take_append_drop (i₀ + 1) w.nds
    · rw [List.getLast?_eq_getElem?]
      have hlen : (w.nds.take (i₀ + 1)).length = i₀ + 1 := by
        rw [List.length_take]; omega
      rw [hlen]
      simp only [Nat.add_sub_cancel]
      rw [List.getElem?_take, if_pos (by omega : i₀ < i₀ + 1)]
    · rw [List.head?_drop]
  · intro s hs j hj
    rw [Way.split_map_nds] at hs
    exact slice_array_interior d w.nds.length w.nds (le_refl _) s hs j hj

/-- Witness for claim C2 at the three-point way A-B-C with B shared:
hypotheses discharged at this concrete input, yielding the two segments. -/
theorem claim2_way_split_witness :
    (Way.split way2w div2w).map Way.nds = [["A", "B"], ["B", "C"]] := by
  have h := claim2_way_split way2w div2w (by decide)
  exact (h.2.1 1 (by decide) (by decide) (by decide)).1

/-- Claim C8: the haversine distance in meter mode is non-negative, the
distance from a point to itself is 0, and the distance is symmetric in its
two coordinate pairs (exactly, in the real-number embedding). -/
theorem claim8_haversine (lon1 lat1 lon2 lat2 : ℝ) :
    0 ≤ haversine lon1 lat1 lon2 lat2 true
    ∧ haversine lon1 lat1 lon1 lat1 true = 0
    ∧ haversine lon1 lat1 lon2 lat2 true = haversine lon2 lat2 lon1 lat1 true := by
  have key : ∀ x y : ℝ, Real.sin ((x - y) / 2) ^ 2 = Real.sin ((y - x) / 2) ^ 2 := by
    intro x y
    have hxy : (x - y) / 2 = -((y - x) / 2) := by ring
    rw [hxy, Real.sin_neg]
    ring
  refine ⟨?_, ?_, ?_⟩
  · simp only [haversine]
    refine mul_nonneg (mul_nonneg (by norm_num) ?_) (by norm_num)
    exact Real.arcsin_nonneg.mpr (Real.sqrt_nonneg _)
  · simp only [haversine, sub_self, zero_div, Real.sin_zero]
    norm_num [Real.sqrt_zero, Real.arcsin_zero]
  · simp only [haversine]
    rw [key (radians lat2) (radians lat1), key (radians lon2) (radians lon1),
      mul_comm (Real.cos (radians lat1)) (Real.cos (radians lat2))]

/-- A two-node way never splits: its only candidate interior index fails
the loop bound, so slice_array returns the input unchanged. -/
theorem Way.split_pair (w : Way) (d : String → Nat) (a b : String)
    (hnds : w.nds = [a, b]) :
    w.split d = [{ w with id := w.id ++ "-" ++ toString (0 : Nat), nds := [a, b] }] := by
  have h2 : slice_array d [a, b] = [[a, b]] := by
    apply slice_array_eq_none
    rw [findDivIdx, dif_neg (by simp)]
  unfold Way.split
  rw [hnds, h2]
  rfl

/-- Evaluation of osmInit on a document whose single way has exactly two
node references: the way is retained and not split. -/
theorem osmInit_single_pair (nodes : List OsmNode) (w : Way) (a b : String)
    (hnds : w.nds = [a, b]) (h : List (String × Nat))
    (hh : histogramPass [w] (initHist nodes) = .ok h) :
    osmInit nodes [w] = .ok [{ w with id := w.id ++ "-" ++ toString (0 : Nat), nds := [a, b] }] := by
  unfold osmInit
  rw [hh]
  show Except.ok (w.split (histCount h) ++ []) = _
  rw [Way.split_pair w (histCount h) a b hnds]
  rfl

/-- The one-way variant of way4. -/
def way1 : Way := ⟨"w", ["A", "B"], [("highway", "residential"), ("oneway", "yes")]⟩

/-- Claim C1 (code evaluation at the failing input): the graph is an
undirected networkx.Graph, so the two-way residential segment A-B yields a
single undirected edge, not two directed ones, and the graph the way loop
builds is identical to the one built from the same segment tagged
oneway=yes. -/
theorem claim1_undirected_graph :
    (stateOf (buildEdges true [way4])).graph.edges.length = 1
    ∧ (stateOf (buildEdges true [way4])).graph
      = (stateOf (buildEdges true [way1])).graph := ⟨rfl, rfl⟩

/-- Claim C3 (code evaluation at the failing input): a document whose only
way has a single node reference makes OSM.__init__ raise RuntimeError
(dict deleted from while iterated), so the build fails instead of silently
skipping the degenerate way. -/
theorem claim3_degenerate_way_runtime_error :
    osmInit docDegenerate.nodes docDegenerate.ways = .error .runtimeError
    ∧ create_streetnetwork docDegenerate true = .error .runtimeError := ⟨rfl, rfl⟩

/-- Claim C4 (code evaluation at the failing input): the two-way road A-B
produces one undirected edge, the registry reached through (A,B) is the
registry reached through (B,A), it is initialized with empty occupant
lists, and adding an occupant through one direction is visible through the
other: there are no two independent registries. -/
theorem claim4_shared_registry :
    st4.graph.edges.length = 1
    ∧ edgeRegistry st4 "A" "B" = edgeRegistry st4 "B" "A"
    ∧ edgeRegistry st4 "A" "B" = some [("A", []), ("B", [])]
    ∧ edgeRegistry (addOccupant st4 "A" "B" "A" "car1") "B" "A"
      = some [("A", ["car1"]), ("B", [])] := ⟨rfl, rfl, rfl, rfl⟩

/-- Claim C6 (code evaluation at the failing input): the exclusion list
spells "cicleway", so a way tagged highway=cycleway is retained and
contributes an edge although the claim says it is excluded. -/
theorem claim6_cycleway_not_excluded :
    "cycleway" ∉ excludedHighways
    ∧ "cicleway" ∈ excludedHighways
    ∧ (stateOf (buildEdges true [⟨"w", ["A", "B"], [("highway", "cycleway")]⟩])).graph.edges.length
      = 1 :=
  ⟨by decide, by decide, rfl⟩

/-- Claim C7 counterexample: a stop-position point without a name tag is
extracted with display name "unkown", not the placeholder "unknown" the
claim states. -/
theorem claim7_counterexample :
    (busStopsOf (create_streetnetwork docBusStop true)).map Feature.name = ["unkown"]
    ∧ "unkown" ≠ "unknown" := by
  constructor
  · have hinit : osmInit docBusStop.nodes docBusStop.ways
        = .ok [⟨"w" ++ "-" ++ toString (0 : Nat), ["A", "B"], [("highway", "residential")]⟩] :=
      osmInit_single_pair docBusStop.nodes _ "A" "B" rfl _ rfl
    unfold create_streetnetwork
    rw [hinit]
    rfl
  · decide

/-- Claim C9 counterexample: a document with a degenerate way that lacks a
highway tag makes create_streetnetwork with only_roads=false raise
RuntimeError, not the KeyError the claim states for every such input. -/
theorem claim9_counterexample :
    isKeyErrorResult (create_streetnetwork docDegenerate false) = false
    ∧ create_streetnetwork docDegenerate false = .error .runtimeError
    ∧ (∃ w ∈ docDegenerate.ways, lookupTag w.tags "highway" = none) :=
  ⟨rfl, rfl, by decide⟩

/-- Claim C10 counterexample: a degenerate way ordered before a way with a
dangling node reference makes OSM.__init__ raise RuntimeError, not the
KeyError the claim states for every input with a dangling reference. -/
theorem claim10_counterexample :
    osmInit docDegThenDangling.nodes docDegThenDangling.ways = .error .runtimeError
    ∧ isKeyErrorResult (osmInit docDegThenDangling.nodes docDegThenDangling.ways) = false
    ∧ (∃ w ∈ docDegThenDangling.ways, 2 ≤ w.nds.length
        ∧ ∃ nd ∈ w.nds, ∀ n ∈ docDegThenDangling.nodes, n.id ≠ nd) :=
  ⟨rfl, rfl, by decide⟩

theorem except_error_bind {α β : Type} (e : PyErr) (f : α → Except PyErr β) :
    (Except.error e >>= f) = Except.error e := rfl

theorem except_ok_bind {α β : Type} (a : α) (f : α → Except PyErr β) :
    (Except.ok a >>= f) = f a := rfl

theorem addNode_edges (g : PyGraph) (n : String) : (addNode g n).edges = g.edges := by
  unfold addNode
  split <;> rfl

theorem addEdge_data (g : PyGraph) (u v : String) (d : EdgeData) :
    ∀ e ∈ (addEdge g u v d).edges, e ∈ g.edges ∨ e.2 = d := by
  intro e he
  simp only [addEdge, addNode_edges] at he
  split at he
  · rw [List.mem_map] at he
    obtain ⟨e1, he1, heq⟩ := he
    by_cases hm : edgeMatches u v e1 = true
    · rw [if_pos hm] at heq
      right
      rw [← heq]
    · rw [if_neg hm] at heq
      left
      rw [← heq]
      exact he1
  · rw [List.mem_append] at he
    rcases he with h1 | h1
    · exact Or.inl h1
    · right
      rw [List.mem_singleton] at h1
      rw [h1]

theorem add_path_data (nds : List String) :
    ∀ (g : PyGraph) (d : EdgeData), ∀ e ∈ (add_path g nds d).edges,
      e ∈ g.edges ∨ e.2 = d := by
  unfold add_path
  generalize nds.zip nds.tail = ps
  induction ps with
  | nil => intro g d e he; exact Or.inl he
  | cons p t ih =>
    intro g d e he
    rw [List.foldl_cons] at he
    rcases ih (addEdge g p.1 p.2 d) d e he with h1 | h1
    · exact addEdge_data g p.1 p.2 d e h1
    · exact Or.inr h1

theorem processWay_ok_of_highway (b : Bool) (st : BuildState) (w : Way) (hv : String)
    (hhw : lookupTag w.tags "highway" = some hv) :
    ∃ st', processWay b st w = .ok st' := by
  by_cases hc : hv ∈ excludedHighways
  · exact ⟨st, by simp [processWay, hhw, hc]⟩
  · by_cases ho : lookupTag w.tags "oneway" = some "yes"
    · refine ⟨⟨add_path st.graph w.nds ⟨w.id, computeMaxV w.tags, st.registries.length⟩,
        st.registries ++ [buildCars w.nds]⟩, ?_⟩
      simp [processWay, hhw, hc, ho]
    · refine ⟨⟨add_path
          (add_path st.graph w.nds ⟨w.id, computeMaxV w.tags, st.registries.length⟩)
          w.nds.reverse ⟨w.id, computeMaxV w.tags, st.registries.length⟩,
        st.registries ++ [buildCars w.nds]⟩, ?_⟩
      simp [processWay, hhw, hc, ho]

theorem processWay_none_highway (st : BuildState) (w : Way)
    (hhw : lookupTag w.tags "highway" = none) :
    processWay false st w = .error (.keyError "highway") := by
  simp [processWay, hhw]

theorem processWay_edges (b : Bool) (st st' : BuildState) (w : Way)
    (hok : processWay b st w = .ok st') :
    ∀ e ∈ st'.graph.edges, e ∈ st.graph.edges ∨ e.2.max_v = computeMaxV w.tags := by
  simp only [processWay] at hok
  split at hok
  · cases hok
    intro e he
    exact Or.inl he
  · split at hok
    · exact absurd hok (by simp)
    · split at hok
      · cases hok
        intro e he
        exact Or.inl he
      · split at hok
        · cases hok
          intro e he
          rcases add_path_data w.nds st.graph
              ⟨w.id, computeMaxV w.tags, st.registries.length⟩ e he with h1 | h1
          · exact Or.inl h1
          · right
            rw [h1]
        · cases hok
          intro e he
          rcases add_path_data w.nds.reverse
              (add_path st.graph w.nds ⟨w.id, computeMaxV w.tags, st.registries.length⟩)
              ⟨w.id, computeMaxV w.tags, st.registries.length⟩ e he with h1 | h1
          · rcases add_path_data w.nds st.graph
                ⟨w.id, computeMaxV w.tags, st.registries.length⟩ e h1 with h2 | h2
            · exact Or.inl h2
            · right
              rw [h2]
          · right
            rw [h1]

theorem buildEdges_single (w : Way) :
    buildEdges true [w] = processWay true initBuildState w := by
  unfold buildEdges
  rw [List.foldlM_cons]
  show _ >>= (fun b => pure b) = _
  rw [bind_pure]

/-- Claim C5: every edge the way loop emits for a retained segment carries
max_v as computed from the tags; a present and parsable maxspeed tag gives
the parsed value divided by 3.6, an absent or unparsable one gives 50/3.6,
and a way with a highway tag never fails the build whatever its maxspeed
tag holds. -/
theorem claim5_maxspeed (w : Way) (hv : String)
    (hhw : lookupTag w.tags "highway" = some hv)
    (hex : hv ∉ excludedHighways) :
    (∀ e ∈ edgesOfWay w, e.2.max_v = computeMaxV w.tags)
    ∧ (∀ s v, lookupTag w.tags "maxspeed" = some s → pyFloat s = some v →
        computeMaxV w.tags = v / (3.6 : ℚ))
    ∧ (lookupTag w.tags "maxspeed" = none → computeMaxV w.tags = 50 / (3.6 : ℚ))
    ∧ (∀ s, lookupTag w.tags "maxspeed" = some s → pyFloat s = none →
        computeMaxV w.tags = 50 / (3.6 : ℚ))
    ∧ (∃ st', buildEdges true [w] = .ok st') := by
  obtain ⟨st', hok⟩ := processWay_ok_of_highway true initBuildState w hv hhw
  have hbe : buildEdges true [w] = .ok st' := by
    rw [buildEdges_single, hok]
  refine ⟨?_, ?_, ?_, ?_, ⟨st', hbe⟩⟩
  · intro e he
    have hedges : edgesOfWay w = st'.graph.edges := by
      rw [edgesOfWay, hbe]
      rfl
    rw [hedges] at he
    rcases processWay_edges true initBuildState st' w hok e he with h1 | h1
    · exact absurd h1 (by simp [initBuildState, PyGraph.empty])
    · exact h1
  · intro s v hs hvp
    simp [computeMaxV, hs, hvp]
  · intro hnone
    simp [computeMaxV, hnone]
  · intro s hs hvp
    simp [computeMaxV, hs, hvp]

/-- Witness for claim C5 at a residential way with maxspeed "30": the
hypotheses hold and the computed max speed is 30/3.6. -/
theorem claim5_maxspeed_witness :
    computeMaxV way5.tags = 30 / (3.6 : ℚ)
    ∧ (∀ e ∈ edgesOfWay way5, e.2.max_v = computeMaxV way5.tags) := by
  have h := claim5_maxspeed way5 "residential" rfl (by decide)
  exact ⟨h.2.1 "30" 30 rfl (by decide), h.1⟩

theorem extractBusStops_aux :
    ∀ (l : List OsmNode) (acc : List Feature),
      List.foldl
        (fun acc n =>
          match lookupTag n.tags "public_transport" with
          | some v =>
            if v = "stop_position" ∨ v = "stop_position" then
              acc ++ [⟨(lookupTag n.tags "name").getD "unkown", n.lon, n.lat⟩]
            else acc
          | none => acc) acc l = acc ++ l.filterMap stopFeatureSpec := by
  intro l
  induction l with
  | nil => intro acc; simp
  | cons n t ih =>
    intro acc
    rw [List.foldl_cons, List.filterMap_cons]
    cases hpt : lookupTag n.tags "public_transport" with
    | none =>
      have hspec : stopFeatureSpec n = none := by
        simp [stopFeatureSpec, hpt]
      rw [hspec]
      exact ih acc
    | some v =>
      by_cases hv : v = "stop_position"
      · subst hv
        have hspec : stopFeatureSpec n
            = some ⟨(lookupTag n.tags "name").getD "unkown", n.lon, n.lat⟩ := by
          simp [stopFeatureSpec, hpt]
        rw [hspec]
        have h2 := ih (acc ++ [⟨(lookupTag n.tags "name").getD "unkown", n.lon, n.lat⟩])
        rw [List.append_assoc] at h2
        exact h2
      · have hspec : stopFeatureSpec n = none := by
          simp [stopFeatureSpec, hpt, hv]
        have hstep : (match (some v : Option String) with
            | some v2 =>
              if v2 = "stop_position" ∨ v2 = "stop_position" then
                acc ++ [(⟨(lookupTag n.tags "name").getD "unkown", n.lon, n.lat⟩ : Feature)]
              else acc
            | none => acc) = acc := by
          simp [hv]
        rw [hspec, hstep]
        exact ih acc

theorem length_filterMap_stop (ns : List OsmNode) :
    (ns.filterMap stopFeatureSpec).length = ns.countP isStopPos := by
  induction ns with
  | nil => rfl
  | cons n t ih =>
    rw [List.filterMap_cons, List.countP_cons]
    by_cases hp : lookupTag n.tags "public_transport" = some "stop_position"
    · have hspec : stopFeatureSpec n
          = some ⟨(lookupTag n.tags "name").getD "unkown", n.lon, n.lat⟩ := by
        simp [stopFeatureSpec, hp]
      have hstop : isStopPos n = true := by
        simp [isStopPos, hp]
      rw [hspec, hstop, List.length_cons, ih]
      simp
    · have hspec : stopFeatureSpec n = none := by
        simp [stopFeatureSpec, hp]
      have hstop : isStopPos n = false := by
        simp [isStopPos, hp]
      rw [hspec, hstop, ih]
      simp

/-- Claim C7 (amended): the extraction loop equals, point for point, the
map that sends a node tagged public_transport=stop_position to one feature
holding its coordinates and its name tag (fallback "unkown", as the code
spells it) and every other node to nothing; in particular it emits exactly
one feature per stop-position node of its input. -/
theorem claim7_amended (ns : List OsmNode) :
    extractBusStops ns = ns.filterMap stopFeatureSpec
    ∧ (extractBusStops ns).length = ns.countP isStopPos
    ∧ (∀ n, lookupTag n.tags "public_transport" = some "stop_position" →
        stopFeatureSpec n
          = some ⟨(lookupTag n.tags "name").getD "unkown", n.lon, n.lat⟩)
    ∧ (∀ n, lookupTag n.tags "public_transport" ≠ some "stop_position" →
        stopFeatureSpec n = none) := by
  have h1 : extractBusStops ns = ns.filterMap stopFeatureSpec := by
    unfold extractBusStops
    rw [extractBusStops_aux ns []]
    rfl
  refine ⟨h1, ?_, ?_, ?_⟩
  · rw [h1, length_filterMap_stop]
  · intro n hp
    simp [stopFeatureSpec, hp]
  · intro n hp
    simp [stopFeatureSpec, hp]

/-- Witness for claim C7 at a one-node list: the stop-position node without
a name tag yields exactly the feature with display name "unkown". -/
theorem claim7_amended_witness :
    extractBusStops [nodeStop] = [⟨"unkown", 1, 2⟩]
    ∧ stopFeatureSpec nodeStop = some ⟨"unkown", 1, 2⟩ := by
  have h := claim7_amended [nodeStop]
  constructor
  · rw [h.1]
    rfl
  · exact h.2.2.1 nodeStop (by decide)

theorem incrNode_keys (h h2 : List (String × Nat)) (nd : String)
    (hok : incrNode h nd = .ok h2) : h2.map Prod.fst = h.map Prod.fst := by
  unfold incrNode at hok
  split at hok
  · cases hok
    rw [List.map_map]
    apply List.map_congr_left
    intro p _
    simp only [Function.comp_apply]
    split <;> rfl
  · exact absurd hok (by simp)

theorem incrNode_err (h : List (String × Nat)) (nd : String) (e : PyErr)
    (herr : incrNode h nd = .error e) : e = .keyError nd := by
  unfold incrNode at herr
  split at herr
  · exact absurd herr (by simp)
  · cases herr
    rfl

theorem incr_fold_keys : ∀ (nds : List String) (h h2 : List (String × Nat)),
    nds.foldlM incrNode h = .ok h2 → h2.map Prod.fst = h.map Prod.fst := by
  intro nds
  induction nds with
  | nil =>
    intro h h2 hok
    cases hok
    rfl
  | cons nd t ih =>
    intro h h2 hok
    rw [List.foldlM_cons] at hok
    cases hi : incrNode h nd with
    | error e =>
      rw [hi, except_error_bind] at hok
      exact absurd hok (by simp)
    | ok h1 =>
      rw [hi, except_ok_bind] at hok
      rw [ih h1 h2 hok, incrNode_keys h h1 nd hi]

theorem incr_fold_err : ∀ (nds : List String) (h : List (String × Nat)) (e : PyErr),
    nds.foldlM incrNode h = .error e → ∃ s, e = .keyError s := by
  intro nds
  induction nds with
  | nil =>
    intro h e herr
    exact absurd herr (by simp [pure, Except.pure])
  | cons nd t ih =>
    intro h e herr
    rw [List.foldlM_cons] at herr
    cases hi : incrNode h nd with
    | error e1 =>
      rw [hi, except_error_bind] at herr
      cases herr
      exact ⟨nd, incrNode_err h nd _ hi⟩
    | ok h1 =>
      rw [hi, except_ok_bind] at herr
      exact ih h1 e herr

theorem incr_fold_missing : ∀ (nds : List String) (h : List (String × Nat)),
    (∃ nd ∈ nds, ∀ p ∈ h, p.1 ≠ nd) →
    ∃ e, nds.foldlM incrNode h = .error e := by
  intro nds
  induction nds with
  | nil =>
    intro h hmiss
    obtain ⟨nd, hmem, _⟩ := hmiss
    exact absurd hmem (by simp)
  | cons nd t ih =>
    intro h hmiss
    rw [List.foldlM_cons]
    cases hi : incrNode h nd with
    | error e =>
      rw [except_error_bind]
      exact ⟨e, rfl⟩
    | ok h1 =>
      rw [except_ok_bind]
      obtain ⟨x, hxmem, hxmiss⟩ := hmiss
      rcases List.mem_cons.mp hxmem with rfl | hxt
      · exfalso
        unfold incrNode at hi
        split at hi
        · rename_i hany
          rw [List.any_eq_true] at hany
          obtain ⟨p, hp, hpx⟩ := hany
          rw [beq_iff_eq] at hpx
          exact hxmiss p hp hpx
        · exact absurd hi (by simp)
      · apply ih h1
        refine ⟨x, hxt, ?_⟩
        intro p hp
        have hkeys := incrNode_keys h h1 nd hi
        have hp1 : p.1 ∈ h1.map Prod.fst := List.mem_map_of_mem Prod.fst hp
        rw [hkeys, List.mem_map] at hp1
        obtain ⟨q, hq, hq1⟩ := hp1
        rw [← hq1]
        exact hxmiss q hq

theorem histogramPass_err_shape : ∀ (ways : List Way) (h : List (String × Nat)) (e : PyErr),
    (∀ w ∈ ways, 2 ≤ w.nds.length) → histogramPass ways h = .error e →
    ∃ s, e = .keyError s := by
  intro ways
  induction ways with
  | nil =>
    intro h e _ herr
    exact absurd herr (by simp [histogramPass])
  | cons w t ih =>
    intro h e hlen herr
    rw [histogramPass] at herr
    rw [if_neg (by have := hlen w (by simp); omega)] at herr
    cases hi : w.nds.foldlM incrNode h with
    | error e1 =>
      rw [hi, except_error_bind] at herr
      cases herr
      exact incr_fold_err w.nds h _ hi
    | ok h1 =>
      rw [hi, except_ok_bind] at herr
      exact ih h1 e (fun w2 hw2 => hlen w2 (by simp [hw2])) herr

theorem histogramPass_missing : ∀ (ways : List Way) (h : List (String × Nat)),
    (∀ w ∈ ways, 2 ≤ w.nds.length) →
    (∃ w ∈ ways, ∃ nd ∈ w.nds, ∀ p ∈ h, p.1 ≠ nd) →
    ∃ s, histogramPass ways h = .error (.keyError s) := by
  intro ways
  induction ways with
  | nil =>
    intro h _ hmiss
    obtain ⟨w, hw, _⟩ := hmiss
    exact absurd hw (by simp)
  | cons w t ih =>
    intro h hlen hmiss
    rw [histogramPass]
    rw [if_neg (by have := hlen w (by simp); omega)]
    obtain ⟨x, hxmem, nd, hnd, hndmiss⟩ := hmiss
    rcases List.mem_cons.mp hxmem with rfl | hxt
    · obtain ⟨e, he⟩ := incr_fold_missing x.nds h ⟨nd, hnd, hndmiss⟩
      obtain ⟨s, rfl⟩ := incr_fold_err x.nds h e he
      rw [he, except_error_bind]
      exact ⟨s, rfl⟩
    · cases hi : w.nds.foldlM incrNode h with
      | error e =>
        obtain ⟨s, rfl⟩ := incr_fold_err w.nds h e hi
        rw [except_error_bind]
        exact ⟨s, rfl⟩
      | ok h1 =>
        rw [except_ok_bind]
        apply ih h1 (fun w2 hw2 => hlen w2 (by simp [hw2]))
        refine ⟨x, hxt, nd, hnd, ?_⟩
        intro p hp
        have hkeys := incr_fold_keys w.nds h h1 hi
        have hp1 : p.1 ∈ h1.map Prod.fst := List.mem_map_of_mem Prod.fst hp
        rw [hkeys, List.mem_map] at hp1
        obtain ⟨q, hq, hq1⟩ := hp1
        rw [← hq1]
        exact hndmiss q hq

theorem buildEdges_fold_no_highway : ∀ (segs : List Way) (st : BuildState),
    (∃ sg ∈ segs, lookupTag sg.tags "highway" = none) →
    segs.foldlM (processWay false) st = .error (.keyError "highway") := by
  intro segs
  induction segs with
  | nil =>
    intro st hex
    obtain ⟨sg, hsg, _⟩ := hex
    exact absurd hsg (by simp)
  | cons a t ih =>
    intro st hex
    rw [List.foldlM_cons]
    cases hha : lookupTag a.tags "highway" with
    | none =>
      rw [processWay_none_highway st a hha, except_error_bind]
    | some hv =>
      obtain ⟨st1, hst1⟩ := processWay_ok_of_highway false st a hv hha
      rw [hst1, except_ok_bind]
      apply ih st1
      obtain ⟨x, hx, hxn⟩ := hex
      rcases List.mem_cons.mp hx with rfl | hxt
      · rw [hha] at hxn
        exact absurd hxn (by simp)
      · exact ⟨x, hxt, hxn⟩

/-- Claim C9 (amended): when every polyline has at least two node
references, any document containing a way without a highway tag makes
create_streetnetwork with only_roads=false raise an uncaught KeyError
(from the unconditional w.tags["highway"] read, or from the histogram if a
reference dangles first), so no graph is returned. -/
theorem claim9_amended (doc : OsmDoc)
    (hlen : ∀ w ∈ doc.ways, 2 ≤ w.nds.length)
    (hnh : ∃ w ∈ doc.ways, lookupTag w.tags "highway" = none) :
    ∃ s, create_streetnetwork doc false = .error (.keyError s) := by
  unfold create_streetnetwork
  unfold osmInit
  cases hh : histogramPass doc.ways (initHist doc.nodes) with
  | error e =>
    obtain ⟨s, rfl⟩ := histogramPass_err_shape doc.ways (initHist doc.nodes) e hlen hh
    refine ⟨s, ?_⟩
    rw [except_error_bind, except_error_bind]
  | ok h1 =>
    rw [except_ok_bind, except_ok_bind]
    refine ⟨"highway", ?_⟩
    have hseg : ∃ sg ∈ doc.ways.flatMap (fun w2 => w2.split (histCount h1)),
        lookupTag sg.tags "highway" = none := by
      obtain ⟨w, hw, hwn⟩ := hnh
      obtain ⟨sw, hsw⟩ :=
        List.exists_mem_of_ne_nil (w.split (histCount h1)) (Way.split_ne_nil w _)
      refine ⟨sw, ?_, ?_⟩
      · rw [List.mem_flatMap]
        exact ⟨w, hw, hsw⟩
      · rw [Way.split_tags w _ sw hsw]
        exact hwn
    unfold buildEdges
    rw [buildEdges_fold_no_highway _ initBuildState hseg, except_error_bind]

/-- Witness for claim C9 at a well-formed no-highway document. -/
theorem claim9_amended_witness :
    (∀ w ∈ docNoHighway.ways, 2 ≤ w.nds.length)
    ∧ ∃ s, create_streetnetwork docNoHighway false = .error (.keyError s) :=
  ⟨by decide, claim9_amended docNoHighway (by decide) (by decide)⟩

/-- Claim C10 (amended): when every polyline has at least two node
references, a dangling node reference in some way makes OSM construction
raise an uncaught KeyError in the histogram loop, aborting the build before
splitting or graph construction, so the caller receives no graph for
either value of only_roads. -/
theorem claim10_amended (doc : OsmDoc)
    (hlen : ∀ w ∈ doc.ways, 2 ≤ w.nds.length)
    (hdang : ∃ w ∈ doc.ways, ∃ nd ∈ w.nds, ∀ n ∈ doc.nodes, n.id ≠ nd) :
    ∃ s, osmInit doc.nodes doc.ways = .error (.keyError s)
      ∧ create_streetnetwork doc true = .error (.keyError s)
      ∧ create_streetnetwork doc false = .error (.keyError s) := by
  have hmiss : ∃ w ∈ doc.ways, ∃ nd ∈ w.nds, ∀ p ∈ initHist doc.nodes, p.1 ≠ nd := by
    obtain ⟨w, hw, nd, hnd, hm⟩ := hdang
    refine ⟨w, hw, nd, hnd, ?_⟩
    intro p hp
    rw [initHist, List.mem_map] at hp
    obtain ⟨n, hn, rfl⟩ := hp
    exact hm n hn
  obtain ⟨s, hs⟩ := histogramPass_missing doc.ways (initHist doc.nodes) hlen hmiss
  have hosm : osmInit doc.nodes doc.ways = .error (.keyError s) := by
    unfold osmInit
    rw [hs, except_error_bind]
  refine ⟨s, hosm, ?_, ?_⟩ <;>
    · unfold create_streetnetwork
      rw [hosm, except_error_bind]

/-- Witness for claim C10 at a well-formed document with one dangling
reference. -/
theorem claim10_amended_witness :
    (∀ w ∈ docDangling.ways, 2 ≤ w.nds.length)
    ∧ ∃ s, osmInit docDangling.nodes docDangling.ways = .error (.keyError s)
        ∧ create_streetnetwork docDangling true = .error (.keyError s)
        ∧ create_streetnetwork docDangling false = .error (.keyError s) :=
  ⟨by decide, claim10_amended docDangling (by decide) (by decide)⟩
